import Mathlib

/-!
Verification development for `md_img_sync.py`, a markdown image
synchronisation tool.  The pipeline under study: URL extraction from
markdown text, safe filename derivation (with a SHA-1 hash fallback),
a resumable single-file fetcher, a batch downloader, and a document
rewriter.

The embedding is shallow: document text and URLs are `List Char`
(ASCII fragment of Python's Unicode semantics: the regex classes
`\s`, `IGNORECASE` matching and `str.isdigit`/`str.strip` are modelled
on their ASCII behaviour); the network and filesystem are an explicit
environment record; every function is executable.

Two stdlib behaviours cannot be embedded totally and are handled by
explicit hypotheses instead: `urllib.parse.urlsplit` can raise
`ValueError` (netlocs with an unmatched `[`/`]`, bracketed hosts that
fail validation, certain non-ASCII netlocs), and `str.isdigit`/`int`
treat non-ASCII digit-like characters specially.  The predicates
`netlocSafe` and `asciiCL` below give sufficient syntactic conditions
under which CPython provably returns normally and agrees with the
model; every theorem whose subject runs through those code paths on
arbitrary URLs or header values carries them as hypotheses, so no
theorem asserts anything about an execution in which the real program
would raise where the model returns.
-/

set_option maxRecDepth 4000

namespace MdImgSync

/-- ASCII whitespace: the characters matched by the regex class `\s`
and stripped by `str.strip` on ASCII text. -/
def isWS (c : Char) : Bool :=
  c == ' ' || c == '\t' || c == '\n' || c == '\r' || c == '\x0b' || c == '\x0c'

/-- `str.strip()`: remove leading and trailing whitespace. -/
def pyStrip (l : List Char) : List Char :=
  ((l.dropWhile isWS).reverse.dropWhile isWS).reverse

/-- Keep-first deduplication, written directly after the spec's words
("keep first occurrence only, by exact string equality"); compared
below with the seen-set loop of `extract_image_urls`. -/
def dedupFirst : List (List Char) → List (List Char)
  | [] => []
  | a :: l => a :: dedupFirst (l.filter (fun x => x ≠ a))
termination_by l => l.length
decreasing_by
  have := List.length_filter_le (fun x => x ≠ a) l
  simp only [List.length_cons]
  omega

/-- `posixpath.basename`: everything after the last `/`. -/
def posixBasename (p : List Char) : List Char :=
  (p.reverse.takeWhile (fun c => c ≠ '/')).reverse

/-! ### `urllib.parse.urlsplit`

Modern CPython: strip leading C0-control-or-space, remove tab, CR and
LF everywhere, then split scheme, netloc, fragment and query in that
order.  This embedding computes the `SplitResult` of a normally
returning call; CPython additionally raises `ValueError` when the
netloc has an unmatched `[` or `]`, when a bracketed host fails
validation (3.11+), or when a non-ASCII netloc fails the NFKC check.
`netlocSafe` below is a sufficient condition for a normal return, and
the theorems quantifying over URLs assume it. -/

structure SplitResult where
  scheme : List Char
  netloc : List Char
  path : List Char
  query : List Char
  fragment : List Char
deriving DecidableEq, Repr

def isSchemeChar (c : Char) : Bool :=
  c.isAlpha || c.isDigit || c == '+' || c == '-' || c == '.'

def urlsplit (url0 : List Char) : SplitResult :=
  let url1 := url0.dropWhile (fun c => c.toNat ≤ 0x20)
  let url := url1.filter (fun c => ¬(c = '\t' ∨ c = '\r' ∨ c = '\n'))
  let pre := url.takeWhile (fun c => c ≠ ':')
  let headAlpha : Bool := match url.head? with
    | some c => c.isAlpha
    | none => false
  let schemeOK : Bool :=
    decide (pre.length < url.length) && !pre.isEmpty && headAlpha && pre.all isSchemeChar
  let scheme := if schemeOK then pre.map Char.toLower else []
  let rest := if schemeOK then url.drop (pre.length + 1) else url
  let hasNetloc : Bool := match rest with
    | '/' :: '/' :: _ => true
    | _ => false
  let netloc :=
    if hasNetloc then (rest.drop 2).takeWhile (fun c => ¬(c = '/' ∨ c = '?' ∨ c = '#')) else []
  let rest2 :=
    if hasNetloc then (rest.drop 2).dropWhile (fun c => ¬(c = '/' ∨ c = '?' ∨ c = '#')) else rest
  let frag := if '#' ∈ rest2 then (rest2.dropWhile (fun c => c ≠ '#')).drop 1 else []
  let rest3 := if '#' ∈ rest2 then rest2.takeWhile (fun c => c ≠ '#') else rest2
  let query := if '?' ∈ rest3 then (rest3.dropWhile (fun c => c ≠ '?')).drop 1 else []
  let path := if '?' ∈ rest3 then rest3.takeWhile (fun c => c ≠ '?') else rest3
  ⟨scheme, netloc, path, query, frag⟩

/-- Sufficient condition for CPython's `urlsplit url` to return
normally rather than raise `ValueError`: the parsed netloc contains no
bracket (so neither the unmatched-bracket check nor the bracketed-host
validation fires) and is pure ASCII (so the NFKC netloc check accepts
it unchanged).  Theorems about code paths that reach
`safe_basename_from_url` on an arbitrary URL carry this hypothesis: on
a URL outside it the real `urlsplit` may raise instead of returning,
which the total embedding does not represent. -/
def netlocSafe (url : List Char) : Bool :=
  (urlsplit url).netloc.all
    (fun c => decide (c ≠ '[') && decide (c ≠ ']') && decide (c.toNat < 128))

/-! ### `urllib.parse.unquote` -/

def isHexDigitChar (c : Char) : Bool :=
  c.isDigit || (decide ('a' ≤ c) && decide (c ≤ 'f')) || (decide ('A' ≤ c) && decide (c ≤ 'F'))

def hexVal (c : Char) : Nat :=
  if c.isDigit then c.toNat - '0'.toNat
  else if decide ('a' ≤ c) && decide (c ≤ 'f') then c.toNat - 'a'.toNat + 10
  else c.toNat - 'A'.toNat + 10

/-- Percent-decode an ASCII segment into bytes; an invalid escape keeps
the `%` literally (as CPython's `unquote_to_bytes`). -/
def pctDecodeSeg : List Char → List Nat
  | '%' :: a :: b :: tl =>
    if isHexDigitChar a && isHexDigitChar b then
      (hexVal a * 16 + hexVal b) :: pctDecodeSeg tl
    else
      '%'.toNat :: pctDecodeSeg (a :: b :: tl)
  | c :: tl => c.toNat :: pctDecodeSeg tl
  | [] => []

def contByte (b : Nat) : Bool := decide (0x80 ≤ b) && decide (b ≤ 0xBF)

def replChar : Char := Char.ofNat 0xFFFD

/-- UTF-8 decoding with `errors='replace'`: each maximal subpart of an
ill-formed sequence becomes one U+FFFD. -/
def utf8DecodeR : List Nat → List Char
  | [] => []
  | b :: tl =>
    if b < 0x80 then Char.ofNat b :: utf8DecodeR tl
    else if 0xC2 ≤ b ∧ b ≤ 0xDF then
      match tl with
      | b2 :: tl2 =>
        if contByte b2 then Char.ofNat ((b - 0xC0) * 64 + (b2 - 0x80)) :: utf8DecodeR tl2
        else replChar :: utf8DecodeR (b2 :: tl2)
      | [] => [replChar]
    else if 0xE0 ≤ b ∧ b ≤ 0xEF then
      match tl with
      | b2 :: tl2 =>
        let lo2 : Nat := if b = 0xE0 then 0xA0 else 0x80
        let hi2 : Nat := if b = 0xED then 0x9F else 0xBF
        if decide (lo2 ≤ b2) && decide (b2 ≤ hi2) then
          match tl2 with
          | b3 :: tl3 =>
            if contByte b3 then
              Char.ofNat ((b - 0xE0) * 4096 + (b2 - 0x80) * 64 + (b3 - 0x80)) :: utf8DecodeR tl3
            else replChar :: utf8DecodeR (b3 :: tl3)
          | [] => [replChar]
        else replChar :: utf8DecodeR (b2 :: tl2)
      | [] => [replChar]
    else if 0xF0 ≤ b ∧ b ≤ 0xF4 then
      match tl with
      | b2 :: tl2 =>
        let lo2 : Nat := if b = 0xF0 then 0x90 else 0x80
        let hi2 : Nat := if b = 0xF4 then 0x8F else 0xBF
        if decide (lo2 ≤ b2) && decide (b2 ≤ hi2) then
          match tl2 with
          | b3 :: tl3 =>
            if contByte b3 then
              match tl3 with
              | b4 :: tl4 =>
                if contByte b4 then
                  Char.ofNat ((b - 0xF0) * 262144 + (b2 - 0x80) * 4096 +
                      (b3 - 0x80) * 64 + (b4 - 0x80)) :: utf8DecodeR tl4
                else replChar :: utf8DecodeR (b4 :: tl4)
              | [] => [replChar]
            else replChar :: utf8DecodeR (b3 :: tl3)
          | [] => [replChar]
        else replChar :: utf8DecodeR (b2 :: tl2)
      | [] => [replChar]
    else replChar :: utf8DecodeR tl

/-- `unquote` body: ASCII runs are percent-decoded as bytes then
UTF-8-decoded; non-ASCII characters pass through unchanged and bound
the runs (CPython's `_asciire` splitting).  Fuel-structural as above. -/
def unquoteAux : Nat → List Char → List Char
  | _, [] => []
  | 0, l => l
  | fuel + 1, c :: tl =>
    if c.toNat < 128 then
      utf8DecodeR (pctDecodeSeg ((c :: tl).takeWhile (fun x => x.toNat < 128))) ++
        unquoteAux fuel ((c :: tl).dropWhile (fun x => x.toNat < 128))
    else c :: unquoteAux fuel tl

def unquote (s : List Char) : List Char :=
  if '%' ∈ s then unquoteAux s.length s else s

/-! ### `hashlib.sha1(...).hexdigest()`

SHA-1 over bytes, words as `Nat` reduced modulo `2 ^ 32`. -/

def utf8Encode (c : Char) : List Nat :=
  let n := c.toNat
  if n < 0x80 then [n]
  else if n < 0x800 then [0xC0 + n / 64, 0x80 + n % 64]
  else if n < 0x10000 then [0xE0 + n / 4096, 0x80 + n / 64 % 64, 0x80 + n % 64]
  else [0xF0 + n / 262144, 0x80 + n / 4096 % 64, 0x80 + n / 64 % 64, 0x80 + n % 64]

def strBytes (l : List Char) : List Nat :=
  l.foldr (fun c acc => utf8Encode c ++ acc) []

def w32 (n : Nat) : Nat := n % 4294967296

def rotl (k n : Nat) : Nat := w32 (n * 2 ^ k + n / 2 ^ (32 - k))

def be64 (n : Nat) : List Nat :=
  [n / 2 ^ 56 % 256, n / 2 ^ 48 % 256, n / 2 ^ 40 % 256, n / 2 ^ 32 % 256,
   n / 2 ^ 24 % 256, n / 2 ^ 16 % 256, n / 2 ^ 8 % 256, n % 256]

def sha1pad (msg : List Nat) : List Nat :=
  let zeros := (120 - (msg.length + 1) % 64) % 64
  msg ++ 0x80 :: (List.replicate zeros 0 ++ be64 (msg.length * 8))

def chunk64Aux : Nat → List Nat → List (List Nat)
  | _, [] => []
  | 0, l => [l]
  | fuel + 1, a :: tl => ((a :: tl).take 64) :: chunk64Aux fuel ((a :: tl).drop 64)

def chunk64 (l : List Nat) : List (List Nat) := chunk64Aux l.length l

def toWords : List Nat → List Nat
  | a :: b :: c :: d :: tl => (a * 16777216 + b * 65536 + c * 256 + d) :: toWords tl
  | _ => []

def sha1Extend (ws : List Nat) : Nat → List Nat
  | 0 => ws
  | k + 1 =>
    sha1Extend (ws ++ [rotl 1 (((ws.getD (ws.length - 3) 0 ^^^ ws.getD (ws.length - 8) 0) ^^^
      ws.getD (ws.length - 14) 0) ^^^ ws.getD (ws.length - 16) 0)]) k

def sha1F (t b c d : Nat) : Nat :=
  if t < 20 then (b &&& c) ||| ((4294967295 ^^^ b) &&& d)
  else if t < 40 then (b ^^^ c) ^^^ d
  else if t < 60 then ((b &&& c) ||| (b &&& d)) ||| (c &&& d)
  else (b ^^^ c) ^^^ d

def sha1K (t : Nat) : Nat :=
  if t < 20 then 0x5A827999
  else if t < 40 then 0x6ED9EBA1
  else if t < 60 then 0x8F1BBCDC
  else 0xCA62C1D6

def sha1Rounds : List Nat → Nat → Nat × Nat × Nat × Nat × Nat → Nat × Nat × Nat × Nat × Nat
  | [], _, st => st
  | w :: ws, t, (a, b, c, d, e) =>
    sha1Rounds ws (t + 1) (w32 (rotl 5 a + sha1F t b c d + e + sha1K t + w), a, rotl 30 b, c, d)

def sha1Block (st : Nat × Nat × Nat × Nat × Nat) (block : List Nat) :
    Nat × Nat × Nat × Nat × Nat :=
  match st, sha1Rounds (sha1Extend (toWords block) 64) 0 st with
  | (h0, h1, h2, h3, h4), (a, b, c, d, e) =>
    (w32 (h0 + a), w32 (h1 + b), w32 (h2 + c), w32 (h3 + d), w32 (h4 + e))

def hexDigitChar (n : Nat) : Char :=
  if n < 10 then Char.ofNat (48 + n) else Char.ofNat (87 + n)

def word8Hex (w : Nat) : List Char :=
  [hexDigitChar (w / 2 ^ 28 % 16), hexDigitChar (w / 2 ^ 24 % 16), hexDigitChar (w / 2 ^ 20 % 16),
   hexDigitChar (w / 2 ^ 16 % 16), hexDigitChar (w / 2 ^ 12 % 16), hexDigitChar (w / 2 ^ 8 % 16),
   hexDigitChar (w / 2 ^ 4 % 16), hexDigitChar (w % 16)]

def sha1hex (s : List Char) : List Char :=
  match (chunk64 (sha1pad (strBytes s))).foldl sha1Block
      (0x67452301, 0xEFCDAB89, 0x98BADCFE, 0x10325476, 0xC3D2E1F0) with
  | (h0, h1, h2, h3, h4) =>
    word8Hex h0 ++ word8Hex h1 ++ word8Hex h2 ++ word8Hex h3 ++ word8Hex h4

/-! ### `safe_basename_from_url` -/

def lowerList (l : List Char) : List Char := l.map Char.toLower

def takeRight (n : Nat) (l : List Char) : List Char := l.drop (l.length - n)

/-- `re.search(r'\.(png|jpe?g|gif)$', path, re.IGNORECASE)`, returning
`group(1)` (the extension letters as they appear in `path`). -/
def extSearch (path : List Char) : Option (List Char) :=
  if (".png".data).isSuffixOf (lowerList path) then some (takeRight 3 path)
  else if (".jpeg".data).isSuffixOf (lowerList path) then some (takeRight 4 path)
  else if (".jpg".data).isSuffixOf (lowerList path) then some (takeRight 3 path)
  else if (".gif".data).isSuffixOf (lowerList path) then some (takeRight 3 path)
  else none

/-- The character class `[<>:"/\\|?*\x00-\x1f]` of the final `re.sub`. -/
def isIllegalChar (c : Char) : Bool :=
  c == '<' || c == '>' || c == ':' || c == '"' || c == '/' || c == '\\' ||
    c == '|' || c == '?' || c == '*' || decide (c.toNat ≤ 0x1f)

def sanitizeChar (c : Char) : Char := if isIllegalChar c then '_' else c

/-- The extension used by the hash-fallback branch: the detected image
extension of the path, lowercased and dot-prefixed, else `.img`. -/
def hashExt (path : List Char) : List Char :=
  match extSearch path with
  | some e => '.' :: lowerList e
  | none => (".img").data

def safe_basename_from_url (url : List Char) : List Char :=
  let u := urlsplit url
  let name0 := unquote (posixBasename u.path)
  let name :=
    if name0 = [] then
      u.netloc.map (fun c => if c = ':' then '_' else c) ++
        '_' :: ((sha1hex url).take 12 ++ hashExt u.path)
    else name0
  name.map sanitizeChar

/-! ### The shared markdown image pattern

`re.compile(r'\]\(\s*(https?://[^\s\)]+?\.(?:png|jpe?g|gif))(?:[^\)]*)\)', re.IGNORECASE)`

A direct executable matcher.  At a given start the pattern is
deterministic: `\s*` is followed by `h`, which is not whitespace; the
four extension alternatives are mutually exclusive at any position; and
if the lazy group's first viable extension cannot be followed by
`[^\)]*\)` (no `)` remains), no longer expansion can either, so taking
the first extension hit is exact. -/

def extTry : List Char → Option (List Char × List Char)
  | '.' :: p :: rest =>
    if p.toLower = 'p' then
      match rest with
      | n :: g :: r => if n.toLower = 'n' ∧ g.toLower = 'g' then some ([p, n, g], r) else none
      | _ => none
    else if p.toLower = 'j' then
      match rest with
      | q :: x :: r =>
        if q.toLower = 'p' then
          if x.toLower = 'e' then
            match r with
            | g :: r2 => if g.toLower = 'g' then some ([p, q, x, g], r2) else none
            | [] => none
          else if x.toLower = 'g' then some ([p, q, x], r) else none
        else none
      | _ => none
    else if p.toLower = 'g' then
      match rest with
      | i :: f :: r => if i.toLower = 'i' ∧ f.toLower = 'f' then some ([p, i, f], r) else none
      | _ => none
    else none
  | _ => none

/-- The lazy `[^\s\)]+?\.(?:png|jpe?g|gif)`: at least one non-space
non-`)` character, stopping at the first extension hit. -/
def bodyLazy : List Char → Option (List Char × List Char)
  | [] => none
  | c :: tl =>
    if isWS c || c == ')' then none
    else
      match extTry tl with
      | some (e, r) => some (c :: '.' :: e, r)
      | none =>
        match bodyLazy tl with
        | some (b, r) => some (c :: b, r)
        | none => none

/-- `(?:[^\)]*)\)`: the text up to the first `)`, failing without one. -/
def closeSplit : List Char → Option (List Char × List Char)
  | [] => none
  | c :: tl =>
    if c = ')' then some ([], tl)
    else
      match closeSplit tl with
      | some (t, r) => some (c :: t, r)
      | none => none

/-- `https?://`, case-insensitively. -/
def schemeTry : List Char → Option (List Char × List Char)
  | c1 :: c2 :: c3 :: c4 :: rest =>
    if c1.toLower = 'h' ∧ c2.toLower = 't' ∧ c3.toLower = 't' ∧ c4.toLower = 'p' then
      match rest with
      | c5 :: rest2 =>
        if c5.toLower = 's' then
          match rest2 with
          | ':' :: '/' :: '/' :: r => some ([c1, c2, c3, c4, c5, ':', '/', '/'], r)
          | _ => none
        else
          match c5, rest2 with
          | ':', '/' :: '/' :: r => some ([c1, c2, c3, c4, ':', '/', '/'], r)
          | _, _ => none
      | [] => none
    else none
  | _ => none

/-- One match of the shared pattern: `m.capture` is `group(1)`, and
`m.whole` below reassembles `group(0)`. -/
structure MDMatch where
  ws : List Char
  capture : List Char
  trailing : List Char
deriving DecidableEq, Repr

def MDMatch.whole (m : MDMatch) : List Char :=
  ']' :: '(' :: (m.ws ++ m.capture ++ m.trailing ++ [')'])

/-- Attempt the pattern anchored at the head of the input. -/
def tryMatch : List Char → Option MDMatch
  | ']' :: '(' :: tl =>
    match schemeTry (tl.dropWhile isWS) with
    | some (sch, tl2) =>
      match bodyLazy tl2 with
      | some (body, tl3) =>
        match closeSplit tl3 with
        | some (tr, _) => some ⟨tl.takeWhile isWS, sch ++ body, tr⟩
        | none => none
      | none => none
    | none => none
  | _ => none

/-- `pattern.finditer`: non-overlapping leftmost matches, resuming
after each match's end.  Fuel-structural (each step consumes at least
one character, so fuel = length suffices). -/
def findAllAux : Nat → List Char → List MDMatch
  | _, [] => []
  | 0, _ => []
  | fuel + 1, c :: tl =>
    match tryMatch (c :: tl) with
    | some m => m :: findAllAux fuel ((c :: tl).drop m.whole.length)
    | none => findAllAux fuel tl

def findAll (l : List Char) : List MDMatch := findAllAux l.length l

/-- `pattern.sub(f, text)` with a callable replacement: same scan as
`finditer`, splicing `f m` in place of each `group(0)`. -/
def pySubAux (f : MDMatch → List Char) : Nat → List Char → List Char
  | _, [] => []
  | 0, l => l
  | fuel + 1, c :: tl =>
    match tryMatch (c :: tl) with
    | some m => f m ++ pySubAux f fuel ((c :: tl).drop m.whole.length)
    | none => c :: pySubAux f fuel tl

def pySub (f : MDMatch → List Char) (l : List Char) : List Char :=
  pySubAux f l.length l

/-! ### `extract_image_urls`

The file read is modelled by passing the document text directly. -/

/-- The `urls`/`seen` loop body of `extract_image_urls`. -/
def extractAux : List (List Char) → List (List Char) → List (List Char) → List (List Char)
  | [], urls, _ => urls
  | r :: rs, urls, seen =>
    if r ∈ seen then extractAux rs urls seen
    else extractAux rs (urls ++ [r]) (r :: seen)

def extract_image_urls (text : List Char) : List (List Char) :=
  extractAux ((findAll text).map MDMatch.capture) [] []

/-! ### `new_md` (document rewriter) -/

structure HttpResp where
  status : Nat
  contentLength : Option (List Char)
deriving DecidableEq, Repr

structure FetchEnv where
  headResult : Except (List Char) HttpResp
  destExists : Bool
  destSize : Nat
  getResult : Except (List Char) HttpResp
  chunks : List Nat
  streamError : Option (List Char)
deriving Repr

structure FetchOutcome where
  success : Bool
  message : List Char
  didGet : Bool
  wroteTemp : Bool
  tempLeft : Bool
  wroteDest : Bool
deriving DecidableEq, Repr

def digitsVal (l : List Char) : Nat :=
  l.foldl (fun a c => a * 10 + (c.toNat - 48)) 0

/-- `cl and cl.isdigit()` then `int(cl)`, on ASCII header values, where
it is exact.  On non-ASCII values Python's `isdigit` admits Unicode
digit-like characters for which `int` may parse a value or raise; the
fetch theorems exclude those headers through `asciiCL` hypotheses. -/
def parseCL : Option (List Char) → Option Nat
  | none => none
  | some cl => if cl ≠ [] ∧ cl.all Char.isDigit then some (digitsVal cl) else none

/-- All-ASCII header value: on these, `parseCL` agrees exactly with
`cl and cl.isdigit()` / `int(cl)`. -/
def asciiCL : Option (List Char) → Bool
  | none => true
  | some cl => cl.all (fun c => c.toNat < 128)

/-- The HEAD response's Content-Length value, if any, is all-ASCII (a
HEAD exception reads no header). -/
def headAsciiCL (env : FetchEnv) : Bool :=
  match env.headResult with
  | Except.error _ => true
  | Except.ok h => asciiCL h.contentLength

/-- The `content_length` obtained from the HEAD probe (lines 125-134):
`None` on any HEAD exception, non-200 status, or unparseable header. -/
def headExpected (env : FetchEnv) : Option Nat :=
  match env.headResult with
  | Except.error _ => none
  | Except.ok h => if h.status = 200 then parseCL h.contentLength else none

/-- The expected length used for verification: the HEAD value if any,
else the GET response's declared length (lines 147-150). -/
def expectedLen (env : FetchEnv) (r : HttpResp) : Option Nat :=
  match headExpected env with
  | some n => some n
  | none => parseCL r.contentLength

def excMsg (e url : List Char) : List Char :=
  ("exception: ").data ++ e ++ (" for url ").data ++ url

def natStr (n : Nat) : List Char := (Nat.repr n).data

def download_with_resume (url : List Char) (env : FetchEnv) : FetchOutcome :=
  let safe_name := safe_basename_from_url url
  if env.destExists ∧ headExpected env = some env.destSize then
    ⟨true, ("skip (exists, size match): ").data ++ safe_name, false, false, false, false⟩
  else
    match env.getResult with
    | Except.error e => ⟨false, excMsg e url, true, false, false, false⟩
    | Except.ok r =>
      if r.status ≠ 200 then
        ⟨false, ("HTTP ").data ++ natStr r.status ++ (" for ").data ++ url,
          true, false, false, false⟩
      else
        match env.streamError with
        | some e => ⟨false, excMsg e url, true, true, true, false⟩
        | none =>
          match expectedLen env r with
          | some n =>
            if env.chunks.foldl (fun a b => a + b) 0 ≠ n then
              ⟨false, ("incomplete download (got ").data ++
                natStr (env.chunks.foldl (fun a b => a + b) 0) ++
                (" != expected ").data ++ natStr n ++ (") for ").data ++ safe_name,
                true, true, false, false⟩
            else ⟨true, ("downloaded: ").data ++ safe_name, true, true, false, true⟩
          | none => ⟨true, ("downloaded: ").data ++ safe_name, true, true, false, true⟩

/-- `url.split('#')[0].strip()` (line 187). -/
def url_for_req (url : List Char) : List Char :=
  pyStrip (url.takeWhile (fun c => c ≠ '#'))

/-- The batch loop: one fetch per listed URL, in order; `net` gives the
network/filesystem behaviour seen by each request URL. -/
def img_download_batch (img_list : List (List Char)) (net : List Char → FetchEnv) :
    List (List Char × Bool × List Char) :=
  img_list.map (fun url =>
    (url, (download_with_resume (url_for_req url) (net (url_for_req url))).success,
      (download_with_resume (url_for_req url) (net (url_for_req url))).message))

/-- Concrete environments used by the fetch witnesses. -/
def envSkip : FetchEnv :=
  { headResult := Except.ok ⟨200, some ['4']⟩, destExists := true, destSize := 4,
    getResult := Except.ok ⟨200, none⟩, chunks := [], streamError := none }

def envShort : FetchEnv :=
  { headResult := Except.ok ⟨200, some ['9']⟩, destExists := false, destSize := 0,
    getResult := Except.ok ⟨200, none⟩, chunks := [5], streamError := none }

def envNoLen : FetchEnv :=
  { headResult := Except.error (("timeout").data), destExists := true, destSize := 7,
    getResult := Except.ok ⟨200, some (("x9").data)⟩, chunks := [3, 4], streamError := none }

def envRefused : FetchEnv :=
  { headResult := Except.error (("refused").data), destExists := false, destSize := 0,
    getResult := Except.error (("refused").data), chunks := [], streamError := none }

/-! ### Structural predicates for matches -/

theorem pySub_nil (f : MDMatch → List Char) : pySub f [] = [] := rfl

theorem extractAux_eq : ∀ (rs urls seen : List (List Char)),
    extractAux rs urls seen = urls ++ dedupFirst (rs.filter (fun x => x ∉ seen)) := by
  intro rs
  induction rs with
  | nil => intro urls seen; simp [extractAux, dedupFirst]
  | cons r rs2 ih =>
    intro urls seen
    by_cases hr : r ∈ seen
    · rw [show extractAux (r :: rs2) urls seen = extractAux rs2 urls seen by
        simp [extractAux, hr]]
      rw [ih]
      congr 2
      rw [List.filter_cons]
      simp [hr]
    · rw [show extractAux (r :: rs2) urls seen = extractAux rs2 (urls ++ [r]) (r :: seen) by
        simp [extractAux, hr]]
      rw [ih]
      have hfc : (r :: rs2).filter (fun x => x ∉ seen) =
          r :: rs2.filter (fun x => x ∉ seen) := by
        rw [List.filter_cons]
        simp [hr]
      rw [hfc, dedupFirst]
      have hff : rs2.filter (fun x => x ∉ r :: seen) =
          (rs2.filter (fun x => x ∉ seen)).filter (fun x => x ≠ r) := by
        rw [List.filter_filter]
        apply List.filter_congr
        intro x _
        by_cases hx1 : x = r <;> by_cases hx2 : x ∈ seen <;> simp [hx1, hx2]
      rw [hff]
      simp [List.append_assoc]

/-- The seen-set loop of `extract_image_urls` is exactly keep-first
deduplication of the raw capture list. -/
theorem extract_eq_dedupFirst (text : List Char) :
    extract_image_urls text = dedupFirst ((findAll text).map MDMatch.capture) := by
  unfold extract_image_urls
  rw [extractAux_eq]
  simp

theorem mem_dedupFirst_aux : ∀ (n : Nat) (l : List (List Char)) (x : List Char),
    l.length ≤ n → x ∈ dedupFirst l → x ∈ l := by
  intro n
  induction n with
  | zero =>
    intro l x hl hx
    have h0 : l = [] := List.length_eq_zero.mp (Nat.le_zero.mp hl)
    subst h0
    simp [dedupFirst] at hx
  | succ n ih =>
    intro l x hl hx
    match l with
    | [] => simp [dedupFirst] at hx
    | a :: l2 =>
      rw [dedupFirst] at hx
      rcases List.mem_cons.mp hx with rfl | hx2
      · exact List.mem_cons_self x l2
      · have hlen : (l2.filter (fun y => y ≠ a)).length ≤ n := by
          have := List.length_filter_le (fun y => y ≠ a) l2
          simp only [List.length_cons] at hl
          omega
        have := ih _ x hlen hx2
        exact List.mem_cons_of_mem a (List.mem_of_mem_filter this)

theorem dedupFirst_nodup_aux : ∀ (n : Nat) (l : List (List Char)),
    l.length ≤ n → (dedupFirst l).Nodup := by
  intro n
  induction n with
  | zero =>
    intro l hl
    have h0 : l = [] := List.length_eq_zero.mp (Nat.le_zero.mp hl)
    subst h0
    simp [dedupFirst]
  | succ n ih =>
    intro l hl
    match l with
    | [] => simp [dedupFirst]
    | a :: l2 =>
      rw [dedupFirst]
      have hlen : (l2.filter (fun y => y ≠ a)).length ≤ n := by
        have := List.length_filter_le (fun y => y ≠ a) l2
        simp only [List.length_cons] at hl
        omega
      refine List.Nodup.cons ?_ (ih _ hlen)
      intro hmem
      have := mem_dedupFirst_aux _ _ a hlen hmem
      have := List.of_mem_filter this
      simp at this

/-- The deduplicated list never contains a repeated entry. -/
theorem dedupFirst_nodup (l : List (List Char)) : (dedupFirst l).Nodup :=
  dedupFirst_nodup_aux l.length l le_rfl

/-! ### `urlsplit` on a captured URL -/

/-- C1: the spec claims the basename under which the download pass
stores a URL (derived from the fragment-stripped request URL) always
equals the basename the rewrite pass substitutes (derived from the
captured URL).  The code violates this: for a captured URL whose
fragment carries the image extension, both passes take the hash
fallback, which hashes the full URL string, so the names differ.  The
theorem evaluates both passes at the failing input. -/
theorem c1_pass_basenames_diverge :
    extract_image_urls (("](https://a.com#x.png)").data) = [("https://a.com#x.png").data] ∧
    url_for_req (("https://a.com#x.png").data) = ("https://a.com").data ∧
    safe_basename_from_url (url_for_req (("https://a.com#x.png").data)) =
      ("a.com_e5c1f0f86ea6.img").data ∧
    safe_basename_from_url (("https://a.com#x.png").data) = ("a.com_7ca5c686764d.img").data ∧
    safe_basename_from_url (url_for_req (("https://a.com#x.png").data)) ≠
      safe_basename_from_url (("https://a.com#x.png").data) := by
  refine ⟨by decide, by decide, by decide, by decide, by decide⟩

/-- C4: extraction returns the keep-first deduplication of the raw
capture sequence (hence no duplicates, first-occurrence order) and the
empty list when there is no match; extraction is total by construction. -/
theorem c4_extract_dedup_first_order (text : List Char) :
    extract_image_urls text = dedupFirst ((findAll text).map MDMatch.capture) ∧
    (extract_image_urls text).Nodup ∧
    (findAll text = [] → extract_image_urls text = []) := by
  refine ⟨extract_eq_dedupFirst text, ?_, ?_⟩
  · rw [extract_eq_dedupFirst]
    exact dedupFirst_nodup _
  · intro h
    rw [extract_eq_dedupFirst, h, List.map_nil]
    rw [dedupFirst]

theorem c4_witness :
    extract_image_urls (("no image links here").data) = [] ∧
    extract_image_urls
      (("![a](https://x.com/a.png) ![b](https://y.com/b.jpg) ![a](https://x.com/a.png)").data) =
      [("https://x.com/a.png").data, ("https://y.com/b.jpg").data] ∧
    (extract_image_urls
      (("![a](https://x.com/a.png) ![b](https://y.com/b.jpg) ![a](https://x.com/a.png)").data)).Nodup :=
  ⟨(c4_extract_dedup_first_order _).2.2 (by decide), by decide,
    (c4_extract_dedup_first_order _).2.1⟩

/-- C9: filename derivation is a pure function of the URL string: two
calls with the same string (whether from the download pass or the
rewrite pass) give the same name. -/
theorem c9_deterministic : ∀ u v : List Char, u = v →
    safe_basename_from_url u = safe_basename_from_url v := by
  intro u v h
  rw [h]

theorem c9_witness :
    ("https://a.com/pic.png").data = ("https://a.com/pic.png").data ∧
    safe_basename_from_url (("https://a.com/pic.png").data) =
      safe_basename_from_url (("https://a.com/pic.png").data) :=
  ⟨rfl, c9_deterministic _ _ rfl⟩

/-- C6: if the destination file exists and the HEAD probe produced an
expected size equal to the file's size, the fetch returns success with
the "skip" message, issuing no GET and writing nothing; if any of the
three conditions fails, it proceeds to the streamed GET.  `netlocSafe`
confines the statement to URLs on which the filename derivation (which
the code runs before the skip check) returns rather than raising, and
`headAsciiCL` to probes whose Content-Length the model parses exactly
as Python does. -/
theorem c6_skip_condition (url : List Char) (env : FetchEnv)
    (_hsafe : netlocSafe url = true) (_hha : headAsciiCL env = true) :
    (env.destExists = true → headExpected env = some env.destSize →
      download_with_resume url env =
        ⟨true, ("skip (exists, size match): ").data ++ safe_basename_from_url url,
          false, false, false, false⟩) ∧
    (¬(env.destExists = true ∧ headExpected env = some env.destSize) →
      (download_with_resume url env).didGet = true) := by
  constructor
  · intro h1 h2
    unfold download_with_resume
    rw [if_pos ⟨h1, h2⟩]
  · intro h
    unfold download_with_resume
    rw [if_neg h]
    split
    · rfl
    · split
      · rfl
      · split
        · rfl
        · split
          · split
            · rfl
            · rfl
          · rfl

theorem c6_witness :
    envSkip.destExists = true ∧
    headExpected envSkip = some 4 ∧
    download_with_resume (("https://a.com/pic.png").data) envSkip =
      ⟨true, ("skip (exists, size match): pic.png").data, false, false, false, false⟩ := by
  refine ⟨rfl, by decide, ?_⟩
  have h := (c6_skip_condition (("https://a.com/pic.png").data) envSkip (by decide)
    (by decide)).1 rfl (by decide)
  rw [h]
  decide

/-- C5: on a streamed download with a known expected size and a byte
count that differs from it, the fetch fails with the "incomplete
download" message, the temporary file is deleted, and the destination
is never written.  `netlocSafe` confines the statement to URLs whose
filename derivation returns (otherwise the code fails before any
streaming), and `headAsciiCL` to probes the model parses exactly. -/
theorem c5_incomplete_download_cleanup (url : List Char) (env : FetchEnv) (r : HttpResp)
    (n : Nat)
    (_hsafe : netlocSafe url = true) (_hha : headAsciiCL env = true)
    (hskip : ¬(env.destExists = true ∧ headExpected env = some env.destSize))
    (hget : env.getResult = Except.ok r) (hst : r.status = 200)
    (hse : env.streamError = none) (hlen : expectedLen env r = some n)
    (hmm : env.chunks.foldl (fun a b => a + b) 0 ≠ n) :
    download_with_resume url env =
      ⟨false, ("incomplete download (got ").data ++
          natStr (env.chunks.foldl (fun a b => a + b) 0) ++
          (" != expected ").data ++ natStr n ++ (") for ").data ++
          safe_basename_from_url url,
        true, true, false, false⟩ := by
  unfold download_with_resume
  rw [if_neg hskip]
  simp only [hget, hse, hlen, if_neg (by simp [hst] : ¬r.status ≠ 200), if_pos hmm]

theorem c5_witness :
    download_with_resume (("https://a.com/pic.png").data) envShort =
      ⟨false, ("incomplete download (got 5 != expected 9) for pic.png").data,
        true, true, false, false⟩ := by
  have h := c5_incomplete_download_cleanup (("https://a.com/pic.png").data) envShort
    ⟨200, none⟩ 9 (by decide) (by decide) (by simp [envShort]) rfl rfl rfl (by decide)
    (by decide)
  rw [h]
  decide

/-- C10: when neither the HEAD probe nor the GET response carries a
parseable all-digit Content-Length, no byte-count verification happens:
after streaming, the temporary file is unconditionally renamed onto the
destination and the fetch reports success, whatever was written.
`netlocSafe` confines the statement to URLs whose filename derivation
returns; the two ASCII hypotheses confine it to header values on which
the model's parse agrees exactly with `cl.isdigit()` / `int(cl)`
(non-ASCII digit-like values can make the real code raise or parse a
length where the model sees none). -/
theorem c10_no_length_no_verification (url : List Char) (env : FetchEnv) (r : HttpResp)
    (_hsafe : netlocSafe url = true) (_hha : headAsciiCL env = true)
    (_hga : asciiCL r.contentLength = true)
    (hget : env.getResult = Except.ok r) (hst : r.status = 200)
    (hse : env.streamError = none) (hhead : headExpected env = none)
    (hgcl : parseCL r.contentLength = none) :
    download_with_resume url env =
      ⟨true, ("downloaded: ").data ++ safe_basename_from_url url, true, true, false, true⟩ := by
  have hskip : ¬(env.destExists = true ∧ headExpected env = some env.destSize) := by
    rintro ⟨-, hcontra⟩
    rw [hhead] at hcontra
    exact Option.noConfusion hcontra
  have hlen : expectedLen env r = none := by
    unfold expectedLen
    rw [hhead, hgcl]
  unfold download_with_resume
  rw [if_neg hskip]
  simp only [hget, hse, hlen, if_neg (by simp [hst] : ¬r.status ≠ 200)]

theorem c10_witness :
    download_with_resume (("https://a.com/pic.png").data) envNoLen =
      ⟨true, ("downloaded: pic.png").data, true, true, false, true⟩ := by
  have h := c10_no_length_no_verification (("https://a.com/pic.png").data) envNoLen
    ⟨200, some (("x9").data)⟩ (by decide) (by decide) (by decide) rfl rfl rfl (by decide)
    (by decide)
  rw [h]
  decide

/-- C7: the fetch always returns a `(success, message)` pair and the
batch produces exactly one result per input URL, in order, so one
URL's failure cannot terminate the batch (first conjunct, with no
restriction on the URL: in the code even a `ValueError` raised by
`urlsplit` while deriving the filename is caught by the same
`except Exception` handler and becomes a failure result, since the
derivation sits inside the `try` block).  The remaining conjuncts pin
down the converted message for the modelled exception sources — a GET
exception and a mid-stream exception — on runs whose control flow the
model reproduces exactly: `netlocSafe` URLs (the code fails earlier,
with a different message and no GET, on a bracketed netloc) and ASCII
Content-Length values. -/
theorem c7_no_raise_batch_completes (urls : List (List Char)) (net : List Char → FetchEnv) :
    (img_download_batch urls net).map (fun x => x.1) = urls ∧
    (∀ (url : List Char) (env : FetchEnv) (e : List Char),
      netlocSafe url = true → headAsciiCL env = true →
      ¬(env.destExists = true ∧ headExpected env = some env.destSize) →
      env.getResult = Except.error e →
      download_with_resume url env = ⟨false, excMsg e url, true, false, false, false⟩) ∧
    (∀ (url : List Char) (env : FetchEnv) (r : HttpResp) (e : List Char),
      netlocSafe url = true → headAsciiCL env = true → asciiCL r.contentLength = true →
      ¬(env.destExists = true ∧ headExpected env = some env.destSize) →
      env.getResult = Except.ok r → r.status = 200 → env.streamError = some e →
      download_with_resume url env = ⟨false, excMsg e url, true, true, true, false⟩) := by
  refine ⟨?_, ?_, ?_⟩
  · simp [img_download_batch, Function.comp_def]
  · intro url env e _ _ hskip hget
    unfold download_with_resume
    rw [if_neg hskip]
    simp only [hget]
  · intro url env r e _ _ _ hskip hget hst hse
    unfold download_with_resume
    rw [if_neg hskip]
    simp only [hget, hse, if_neg (by simp [hst] : ¬r.status ≠ 200)]

theorem c7_witness :
    (img_download_batch [("https://a.com/x.png").data, ("https://b.com/y.png").data]
      (fun _ => envRefused)).map (fun x => x.1) =
      [("https://a.com/x.png").data, ("https://b.com/y.png").data] ∧
    download_with_resume (("https://a.com/x.png").data) envRefused =
      ⟨false, ("exception: refused for url https://a.com/x.png").data,
        true, false, false, false⟩ := by
  refine ⟨(c7_no_raise_batch_completes _ _).1, ?_⟩
  have h := (c7_no_raise_batch_completes [] (fun _ => envRefused)).2.1
    (("https://a.com/x.png").data) envRefused (("refused").data) (by decide) (by decide)
    (by simp [envRefused]) rfl
  rw [h]
  decide

/-! ### The hash-fallback name (C8) -/

theorem hexDigitChar_not_illegal : ∀ k, k < 16 → isIllegalChar (hexDigitChar k) = false := by
  decide

theorem word8Hex_not_illegal (w : Nat) : ∀ c ∈ word8Hex w, isIllegalChar c = false := by
  intro c hc
  simp only [word8Hex, List.mem_cons, List.not_mem_nil, or_false] at hc
  rcases hc with rfl | rfl | rfl | rfl | rfl | rfl | rfl | rfl <;>
    exact hexDigitChar_not_illegal _ (Nat.mod_lt _ (by omega))

theorem sha1hex_not_illegal (s : List Char) : ∀ c ∈ sha1hex s, isIllegalChar c = false := by
  unfold sha1hex
  rcases (chunk64 (sha1pad (strBytes s))).foldl sha1Block
    (0x67452301, 0xEFCDAB89, 0x98BADCFE, 0x10325476, 0xC3D2E1F0) with ⟨h0, h1, h2, h3, h4⟩
  intro c hc
  rcases List.mem_append.mp hc with hc1 | hc1
  · rcases List.mem_append.mp hc1 with hc2 | hc2
    · rcases List.mem_append.mp hc2 with hc3 | hc3
      · rcases List.mem_append.mp hc3 with hc4 | hc4
        · exact word8Hex_not_illegal h0 c hc4
        · exact word8Hex_not_illegal h1 c hc4
      · exact word8Hex_not_illegal h2 c hc3
    · exact word8Hex_not_illegal h3 c hc2
  · exact word8Hex_not_illegal h4 c hc1

theorem map_sanitize_id {l : List Char} (h : ∀ c ∈ l, isIllegalChar c = false) :
    l.map sanitizeChar = l := by
  induction l with
  | nil => rfl
  | cons c tl ih =>
    rw [List.map_cons, ih (fun d hd => h d (List.mem_cons_of_mem c hd))]
    have hc := h c (List.mem_cons_self c tl)
    simp [sanitizeChar, hc]

theorem lowerList_takeRight (p : List Char) (k : Nat) :
    lowerList (takeRight k p) = takeRight k (lowerList p) := by
  unfold takeRight lowerList
  rw [List.map_drop, List.length_map]

theorem takeRight_append_long {pre s : List Char} {k : Nat} (hk : s.length = k + 1) :
    takeRight k (pre ++ s) = s.drop 1 := by
  unfold takeRight
  rw [List.length_append, hk]
  have harith : pre.length + (k + 1) - k = pre.length + 1 := by omega
  rw [harith]
  rw [show pre.length + 1 = pre.length + 1 from rfl, ← List.drop_drop,
    List.drop_left]

/-- The effect of `re.search(r'\.(png|jpe?g|gif)$', ...)` on the hash
fallback's extension: when the probe succeeds, the lowercased result is
one of the four concrete extensions. -/
theorem extSearch_some {p e : List Char} (h : extSearch p = some e) :
    '.' :: lowerList e ∈
      [(".png").data, (".jpeg").data, (".jpg").data, (".gif").data] := by
  unfold extSearch at h
  split_ifs at h with h1 h2 h3 h4 <;>
    simp only [Option.some.injEq] at h
  · obtain ⟨pre, hpre⟩ := List.isSuffixOf_iff_suffix.mp h1
    subst h
    rw [lowerList_takeRight, ← hpre, takeRight_append_long (by decide)]
    simp
  · obtain ⟨pre, hpre⟩ := List.isSuffixOf_iff_suffix.mp h2
    subst h
    rw [lowerList_takeRight, ← hpre, takeRight_append_long (by decide)]
    simp
  · obtain ⟨pre, hpre⟩ := List.isSuffixOf_iff_suffix.mp h3
    subst h
    rw [lowerList_takeRight, ← hpre, takeRight_append_long (by decide)]
    simp
  · obtain ⟨pre, hpre⟩ := List.isSuffixOf_iff_suffix.mp h4
    subst h
    rw [lowerList_takeRight, ← hpre, takeRight_append_long (by decide)]
    simp

theorem hashExt_cases (p : List Char) :
    hashExt p = (".img").data ∨
      hashExt p ∈ [(".png").data, (".jpeg").data, (".jpg").data, (".gif").data] := by
  unfold hashExt
  cases hse : extSearch p with
  | none => left; rfl
  | some e => right; exact extSearch_some hse

/-- C8: for a URL whose percent-decoded last path segment is empty, the
derived name is `<host-with-colons-replaced-by-underscore>_<first 12
hex chars of sha1(url)><ext>`, where `<ext>` is a detected (lowercased)
image extension of the path or the generic `.img`.  `netlocSafe`
confines the statement to URLs on which the real `urlsplit` returns
instead of raising `ValueError` (brackets and non-ASCII netlocs, which
`isIllegalChar` does not cover, are excluded by it); `hnet` separately
excludes netloc characters the final sanitisation pass would rewrite,
so the name is literally of the stated form. -/
theorem c8_hash_fallback_name (url : List Char)
    (_hsafe : netlocSafe url = true)
    (hempty : unquote (posixBasename (urlsplit url).path) = [])
    (hnet : ∀ c ∈ (urlsplit url).netloc, c = ':' ∨ isIllegalChar c = false) :
    safe_basename_from_url url =
      (urlsplit url).netloc.map (fun c => if c = ':' then '_' else c) ++
        '_' :: ((sha1hex url).take 12 ++ hashExt (urlsplit url).path) ∧
    (hashExt (urlsplit url).path = (".img").data ∨
      hashExt (urlsplit url).path ∈
        [(".png").data, (".jpeg").data, (".jpg").data, (".gif").data]) := by
  refine ⟨?_, hashExt_cases _⟩
  unfold safe_basename_from_url
  simp only
  rw [if_pos hempty]
  apply map_sanitize_id
  intro c hc
  rcases List.mem_append.mp hc with hc1 | hc1
  · obtain ⟨d, hd, rfl⟩ := List.mem_map.mp hc1
    rcases hnet d hd with rfl | hdill
    · decide
    · have hdne : d ≠ ':' := by
        intro he
        rw [he] at hdill
        exact absurd hdill (by decide)
      rw [if_neg hdne]
      exact hdill
  · rcases List.mem_cons.mp hc1 with rfl | hc2
    · decide
    · rcases List.mem_append.mp hc2 with hc3 | hc3
      · exact sha1hex_not_illegal url c (List.mem_of_mem_take hc3)
      · rcases hashExt_cases (urlsplit url).path with he | he
        · rw [he] at hc3
          exact (by decide : ∀ x ∈ ((".img").data), isIllegalChar x = false) c hc3
        · simp only [List.mem_cons, List.not_mem_nil, or_false] at he
          rcases he with he | he | he | he <;> rw [he] at hc3
          · exact (by decide : ∀ x ∈ ((".png").data), isIllegalChar x = false) c hc3
          · exact (by decide : ∀ x ∈ ((".jpeg").data), isIllegalChar x = false) c hc3
          · exact (by decide : ∀ x ∈ ((".jpg").data), isIllegalChar x = false) c hc3
          · exact (by decide : ∀ x ∈ ((".gif").data), isIllegalChar x = false) c hc3

theorem c8_witness :
    netlocSafe (("https://img.example.com/assets/").data) = true ∧
    unquote (posixBasename (urlsplit (("https://img.example.com/assets/").data)).path) = [] ∧
    safe_basename_from_url (("https://img.example.com/assets/").data) =
      ("img.example.com_db96cfba34a3.img").data := by
  refine ⟨by decide, by decide, ?_⟩
  have h := (c8_hash_fallback_name (("https://img.example.com/assets/").data)
    (by decide) (by decide) (by decide)).1
  rw [h]
  decide

end MdImgSync
